import Mathlib

/-!
# Verification of the functional RMSprop updater

Shallow embedding of `torch/distributed/optim/functional_rmsprop.py`
(`_FunctionalRMSprop`).  Tensors are modelled as flat real-valued buffers
(`List ℝ`); the per-parameter optimizer state dictionary, keyed by parameter
identity, is modelled as a list of `Option ParamState` parallel to the
parameter list (the i-th slot is the state record of the i-th parameter,
`none` when no record exists yet).  Fallible operations return
`Except String`.

The numeric kernel `torch.optim._functional.rmsprop` invoked at the end of
`step` is not part of the sources; it is modelled from the specification
(`rmspropUpdate` below).
-/

noncomputable section

/-- A tensor buffer: a flat list of real-valued elements.  The shape of a
buffer is abstracted to its length. -/
abbrev Tensor := List ℝ

/-- `torch.zeros_like(p)`: a zero buffer with the same shape as `p`. -/
def zerosLike (p : Tensor) : Tensor := List.replicate p.length 0

/-- Elementwise addition of two same-shaped buffers. -/
def ewAdd (a b : Tensor) : Tensor := List.zipWith (fun x y => x + y) a b

/-- Elementwise subtraction of two same-shaped buffers. -/
def ewSub (a b : Tensor) : Tensor := List.zipWith (fun x y => x - y) a b

/-- Elementwise multiplication of two same-shaped buffers. -/
def ewMul (a b : Tensor) : Tensor := List.zipWith (fun x y => x * y) a b

/-- Elementwise division of two same-shaped buffers. -/
def ewDiv (a b : Tensor) : Tensor := List.zipWith (fun x y => x / y) a b

/-- Multiplication of a buffer by a scalar. -/
def scale (c : ℝ) (a : Tensor) : Tensor := a.map (fun x => c * x)

/-- Addition of a scalar to every element of a buffer. -/
def addScalar (a : Tensor) (c : ℝ) : Tensor := a.map (fun x => x + c)

/-- Elementwise square root. -/
def ewSqrt (a : Tensor) : Tensor := a.map Real.sqrt

/-- One per-parameter optimizer state record, the value
`self.state[param]` of the Python dictionary.  `step` is the per-parameter
step counter (`torch.tensor(0.0)` incremented by `1`, hence a natural
number); `momentum_buffer` and `grad_avg` are present only when the
corresponding feature is enabled. -/
structure ParamState where
  step : ℕ
  square_avg : Tensor
  momentum_buffer : Option Tensor
  grad_avg : Option Tensor

/-- The `_FunctionalRMSprop` object: the configuration stored in
`self.defaults` and `self.centered`, the single parameter group
`self.param_group["params"]`, and the state mapping `self.state`
(slot `i` holds the record of parameter `i`, `none` when absent). -/
structure FunctionalRMSprop where
  lr : ℝ
  alpha : ℝ
  eps : ℝ
  weight_decay : ℝ
  momentum : ℝ
  centered : Bool
  params : List Tensor
  state : List (Option ParamState)

/-- The error message of `_FunctionalRMSprop.__init__` for an empty
parameter list. -/
def emptyParamsMsg : String := "optimizer got an empty parameter list"

/-- The error message of `_FunctionalRMSprop.step` for a gradient list whose
length differs from the parameter list's. -/
def mismatchMsg (np ng : ℕ) : String :=
  "the gradients passed in does not equal to the size of the parameters!"
    ++ "Params length: " ++ toString np ++ ". "
    ++ "Gradients length: " ++ toString ng

/-- `_FunctionalRMSprop.__init__`: store the configuration, fail when the
parameter list is empty, otherwise produce the updater with an empty state
mapping (every slot `none`). -/
def FunctionalRMSprop.init (params : List Tensor)
    (lr alpha eps weight_decay momentum : ℝ) (centered : Bool) :
    Except String FunctionalRMSprop :=
  if params.length = 0 then
    .error emptyParamsMsg
  else
    .ok { lr := lr, alpha := alpha, eps := eps, weight_decay := weight_decay,
          momentum := momentum, centered := centered, params := params,
          state := params.map (fun _ => none) }

/-- Lazy state initialization for one parameter (`step` lines 68-77): when no
record exists, create one with `step = 0`, a zero `square_avg` shaped like
the parameter, a zero `momentum_buffer` only if `momentum > 0`, and a zero
`grad_avg` only if `centered`. -/
def lazyInitOne (momentum : ℝ) (centered : Bool) (param : Tensor)
    (st : Option ParamState) : ParamState :=
  match st with
  | some s => s
  | none =>
      { step := 0
        square_avg := zerosLike param
        momentum_buffer := if 0 < momentum then some (zerosLike param) else none
        grad_avg := if centered then some (zerosLike param) else none }

/-- Effect of one iteration of the `step` loop on one parameter's state slot:
a parameter with an absent gradient is skipped; otherwise the record is
lazily created and its step counter incremented (`state["step"] += 1`). -/
def stepStateUpdate (momentum : ℝ) (centered : Bool) (param : Tensor)
    (gradient : Option Tensor) (st : Option ParamState) : Option ParamState :=
  match gradient with
  | none => st
  | some _ =>
      let s := lazyInitOne momentum centered param st
      some { s with step := s.step + 1 }

/-- The state effect of the whole `for param, gradient in zip(params,
gradients)` loop, slot by slot. -/
def stepStates (momentum : ℝ) (centered : Bool) :
    List Tensor → List (Option Tensor) → List (Option ParamState) →
      List (Option ParamState)
  | p :: ps, g :: gs, st :: sts =>
      stepStateUpdate momentum centered p g st ::
        stepStates momentum centered ps gs sts
  | _, _, sts => sts

/-- The state-mutation phase of `step` (lines 65-86): the loop that lazily
initializes records and increments step counters, before the numeric kernel
runs. -/
def FunctionalRMSprop.lazyInit (o : FunctionalRMSprop)
    (gradients : List (Option Tensor)) : FunctionalRMSprop :=
  { o with state := stepStates o.momentum o.centered o.params gradients o.state }

/-- Modelled from the spec: the numeric kernel
`torch.optim._functional.rmsprop` is not among the sources; this is the
per-parameter update of spec section 4.1, steps 3-7.  With the effective
gradient `g` (weight decay applied when nonzero) it sets
`square_avg = alpha * square_avg + (1 - alpha) * g^2`; when centered it also
updates `grad_avg` and normalizes by `sqrt(square_avg - grad_avg^2) + eps`,
otherwise by `sqrt(square_avg) + eps`; with `momentum > 0` it accumulates
`momentum_buffer` and steps the parameter by `-lr * momentum_buffer`,
otherwise by `-lr * g / avg`. -/
def rmspropUpdate (lr alpha eps weight_decay momentum : ℝ) (centered : Bool)
    (param grad : Tensor) (s : ParamState) : Tensor × ParamState :=
  let g := if weight_decay ≠ 0 then ewAdd grad (scale weight_decay param)
           else grad
  let sq := ewAdd (scale alpha s.square_avg) (scale (1 - alpha) (ewMul g g))
  let gaAvg :=
    if centered then
      let ga := ewAdd (scale alpha (s.grad_avg.getD (zerosLike param)))
        (scale (1 - alpha) g)
      (some ga, addScalar (ewSqrt (ewSub sq (ewMul ga ga))) eps)
    else
      (s.grad_avg, addScalar (ewSqrt sq) eps)
  if 0 < momentum then
    let buf := ewAdd (scale momentum (s.momentum_buffer.getD (zerosLike param)))
      (ewDiv g gaAvg.2)
    (ewSub param (scale lr buf),
      { s with square_avg := sq, grad_avg := gaAvg.1,
               momentum_buffer := some buf })
  else
    (ewSub param (scale lr (ewDiv g gaAvg.2)),
      { s with square_avg := sq, grad_avg := gaAvg.1 })

/-- Modelled from the spec: application of the numeric kernel across the
parameter list.  A slot with an absent gradient is left untouched (spec:
"skip entirely: no update applied"); a slot with a present gradient (whose
record exists after lazy initialization) is updated by `rmspropUpdate`. -/
def applyKernel (lr alpha eps weight_decay momentum : ℝ) (centered : Bool) :
    List Tensor → List (Option Tensor) → List (Option ParamState) →
      List Tensor × List (Option ParamState)
  | p :: ps, g :: gs, st :: sts =>
      let rest := applyKernel lr alpha eps weight_decay momentum centered ps gs sts
      match g, st with
      | some grad, some s =>
          let upd := rmspropUpdate lr alpha eps weight_decay momentum centered
            p grad s
          (upd.1 :: rest.1, some upd.2 :: rest.2)
      | _, _ => (p :: rest.1, st :: rest.2)
  | ps, _, sts => (ps, sts)

/-- `_FunctionalRMSprop.step`: fail when the gradient list's length differs
from the parameter list's, otherwise run the lazy-initialization loop and
then the numeric kernel, producing the updated parameters and state. -/
def FunctionalRMSprop.step (o : FunctionalRMSprop)
    (gradients : List (Option Tensor)) : Except String FunctionalRMSprop :=
  if o.params.length ≠ gradients.length then
    .error (mismatchMsg o.params.length gradients.length)
  else
    let o1 := o.lazyInit gradients
    let upd := applyKernel o.lr o.alpha o.eps o.weight_decay o.momentum
      o.centered o1.params gradients o1.state
    .ok { o1 with params := upd.1, state := upd.2 }

/-- A sequence of `step` calls; the first failure aborts the run. -/
def runSteps (o : FunctionalRMSprop) :
    List (List (Option Tensor)) → Except String FunctionalRMSprop
  | [] => .ok o
  | g :: gs =>
      match o.step g with
      | .ok o1 => runSteps o1 gs
      | .error e => .error e

/-- A concrete one-parameter updater used by several witnesses. -/
def oW1 : FunctionalRMSprop :=
  { lr := 0.01, alpha := 0.99, eps := 1e-8, weight_decay := 0, momentum := 0,
    centered := false, params := [[5]], state := [none] }

/-- A concrete updater with momentum and centering enabled, no state yet. -/
def oW5 : FunctionalRMSprop :=
  { lr := 0.01, alpha := 0.99, eps := 1e-8, weight_decay := 0,
    momentum := 0.9, centered := true, params := [[1]], state := [none] }

/-- A state slot respects the configuration: its `momentum_buffer` is
present exactly when `momentum > 0`, its `grad_avg` exactly when
`centered`. -/
def goodSlot (m : ℝ) (c : Bool) (st : Option ParamState) : Prop :=
  ∀ s : ParamState, st = some s →
    (s.momentum_buffer.isSome = true ↔ 0 < m) ∧
    (s.grad_avg.isSome = true ↔ c = true)

/-- A concrete updater with momentum and centering enabled. -/
def oW6 : FunctionalRMSprop :=
  { lr := 0.01, alpha := 0.99, eps := 1e-8, weight_decay := 0,
    momentum := 0.9, centered := true, params := [[1]], state := [none] }

/-- The counter stored in a state slot (`0` when no record exists). -/
def recCount : Option ParamState → ℕ
  | some s => s.step
  | none => 0

/-- The counter read through `List.get?` (`0` when out of range). -/
def slotCount : Option (Option ParamState) → ℕ
  | some st => recCount st
  | none => 0

/-- Whether the gradient list has a present gradient in slot `i`. -/
def presentAt (g : List (Option Tensor)) (i : ℕ) : Bool :=
  match g.get? i with
  | some (some _) => true
  | _ => false

/-- The step counter of parameter `i`. -/
def stepCountAt (o : FunctionalRMSprop) (i : ℕ) : ℕ :=
  slotCount (o.state.get? i)

/-- The updater of the spec's worked numeric example: one scalar parameter
`p = 1.0`, `lr = 0.01`, `alpha = 0.99`, `eps = 1e-8`, `weight_decay = 0`,
`momentum = 0`, `centered = false`. -/
def oC4 : FunctionalRMSprop :=
  { lr := 0.01, alpha := 0.99, eps := 1e-8, weight_decay := 0, momentum := 0,
    centered := false, params := [[1]], state := [none] }

/-! ## Basic elimination and frame lemmas -/

/-- Anatomy of a successful `step` call: the lists had equal length, the
configuration is unchanged, and parameters and state are the output of the
kernel applied after the lazy-initialization loop. -/
theorem step_ok_elim (o o' : FunctionalRMSprop) (g : List (Option Tensor))
    (h : o.step g = .ok o') :
    o.params.length = g.length ∧
    o'.params = (applyKernel o.lr o.alpha o.eps o.weight_decay o.momentum
      o.centered o.params g
      (stepStates o.momentum o.centered o.params g o.state)).1 ∧
    o'.state = (applyKernel o.lr o.alpha o.eps o.weight_decay o.momentum
      o.centered o.params g
      (stepStates o.momentum o.centered o.params g o.state)).2 ∧
    o'.lr = o.lr ∧ o'.alpha = o.alpha ∧ o'.eps = o.eps ∧
    o'.weight_decay = o.weight_decay ∧ o'.momentum = o.momentum ∧
    o'.centered = o.centered := by
  unfold FunctionalRMSprop.step at h
  split at h
  · exact absurd h (by simp)
  · next hne =>
      rw [not_ne_iff] at hne
      refine ⟨hne, ?_⟩
      have ho' : o' = { o with
          params := (applyKernel o.lr o.alpha o.eps o.weight_decay o.momentum
            o.centered o.params g
            (stepStates o.momentum o.centered o.params g o.state)).1,
          state := (applyKernel o.lr o.alpha o.eps o.weight_decay o.momentum
            o.centered o.params g
            (stepStates o.momentum o.centered o.params g o.state)).2 } := by
        have := h
        simp only [Except.ok.injEq] at this
        exact this.symm
      subst ho'
      exact ⟨rfl, rfl, rfl, rfl, rfl, rfl, rfl, rfl⟩

/-- A slot whose gradient is absent is not touched by the
lazy-initialization loop. -/
theorem stepStates_get?_absent (m : ℝ) (c : Bool) (ps : List Tensor)
    (gs : List (Option Tensor)) (sts : List (Option ParamState)) (i : ℕ)
    (h : gs.get? i = some none) :
    (stepStates m c ps gs sts).get? i = sts.get? i := by
  induction ps generalizing gs sts i with
  | nil => simp [stepStates]
  | cons p ps ih =>
    cases gs with
    | nil => simp at h
    | cons g gs =>
      cases sts with
      | nil => simp [stepStates]
      | cons st sts =>
        cases i with
        | zero =>
          simp only [List.get?] at h
          obtain rfl : g = none := by injection h
          simp [stepStates, stepStateUpdate]
        | succ i =>
          simp only [List.get?] at h
          show (stepStates m c ps gs sts).get? i = sts.get? i
          exact ih gs sts i h

/-- A slot whose gradient is absent is not touched by the numeric kernel:
its parameter buffer and its state slot come through unchanged. -/
theorem applyKernel_get?_absent (lr alpha eps wd m : ℝ) (c : Bool)
    (ps : List Tensor) (gs : List (Option Tensor))
    (sts : List (Option ParamState)) (i : ℕ)
    (h : gs.get? i = some none) :
    (applyKernel lr alpha eps wd m c ps gs sts).1.get? i = ps.get? i ∧
    (applyKernel lr alpha eps wd m c ps gs sts).2.get? i = sts.get? i := by
  induction ps generalizing gs sts i with
  | nil => simp [applyKernel]
  | cons p ps ih =>
    cases gs with
    | nil => simp at h
    | cons g gs =>
      cases sts with
      | nil => simp [applyKernel]
      | cons st sts =>
        cases i with
        | zero =>
          simp only [List.get?] at h
          obtain rfl : g = none := by injection h
          simp [applyKernel]
        | succ i =>
          simp only [List.get?] at h
          have := ih gs sts i h
          cases g with
          | none => simpa [applyKernel, List.get?] using this
          | some grad =>
            cases st with
            | none => simpa [applyKernel, List.get?] using this
            | some s => simpa [applyKernel, List.get?] using this

/-- Frame property of one `step` call at a slot whose gradient is absent:
the parameter buffer and the state slot are unchanged. -/
theorem step_frame_absent (o o' : FunctionalRMSprop)
    (g : List (Option Tensor)) (i : ℕ)
    (h : o.step g = .ok o') (habs : g.get? i = some none) :
    o'.params.get? i = o.params.get? i ∧
    o'.state.get? i = o.state.get? i := by
  obtain ⟨-, hp, hs, -⟩ := step_ok_elim o o' g h
  have hk := applyKernel_get?_absent o.lr o.alpha o.eps o.weight_decay
    o.momentum o.centered o.params g
    (stepStates o.momentum o.centered o.params g o.state) i habs
  have hst := stepStates_get?_absent o.momentum o.centered o.params g o.state
    i habs
  exact ⟨by rw [hp]; exact hk.1, by rw [hs]; rw [hk.2]; exact hst⟩

/-! ## Claim theorems: construction and input validation -/

/-- C3: construction with an empty parameter list always fails with the
empty-parameter-list error and produces no updater; construction with any
non-empty parameter list does not raise this error (it succeeds). -/
theorem init_empty_params (lr alpha eps wd m : ℝ) (c : Bool) :
    FunctionalRMSprop.init [] lr alpha eps wd m c = .error emptyParamsMsg ∧
    ∀ params : List Tensor, params ≠ [] →
      ∃ o, FunctionalRMSprop.init params lr alpha eps wd m c = .ok o := by
  refine ⟨rfl, fun params hp => ?_⟩
  have h0 : ¬params.length = 0 := fun h0 => hp (List.length_eq_zero.mp h0)
  exact ⟨_, by unfold FunctionalRMSprop.init; rw [if_neg h0]⟩

/-- Witness for C3 at concrete inputs. -/
theorem init_empty_params_witness :
    ([[1]] : List Tensor) ≠ [] ∧
    FunctionalRMSprop.init [] 0.01 0.99 1e-8 0 0 false
      = .error emptyParamsMsg ∧
    ∃ o, FunctionalRMSprop.init [[1]] 0.01 0.99 1e-8 0 0 false = .ok o :=
  ⟨by simp, (init_empty_params 0.01 0.99 1e-8 0 0 false).1,
    (init_empty_params 0.01 0.99 1e-8 0 0 false).2 [[1]] (by simp)⟩

/-- C10: construction validates nothing about the numeric configuration:
for every non-empty parameter list and arbitrary `lr`, `alpha`, `eps`,
`weight_decay`, `momentum` (negative, zero, out of range), construction
succeeds and stores the values as given. -/
theorem init_no_numeric_validation (params : List Tensor)
    (lr alpha eps wd m : ℝ) (c : Bool) (h : params ≠ []) :
    ∃ o, FunctionalRMSprop.init params lr alpha eps wd m c = .ok o ∧
      o.lr = lr ∧ o.alpha = alpha ∧ o.eps = eps ∧ o.weight_decay = wd ∧
      o.momentum = m ∧ o.centered = c ∧ o.params = params := by
  have h0 : ¬params.length = 0 := fun h0 => h (List.length_eq_zero.mp h0)
  exact ⟨_, by unfold FunctionalRMSprop.init; rw [if_neg h0],
    rfl, rfl, rfl, rfl, rfl, rfl, rfl⟩

/-- Witness for C10: construction succeeds with a negative learning rate,
`alpha > 1`, negative `eps`, negative weight decay and negative momentum. -/
theorem init_no_numeric_validation_witness :
    ([[1]] : List Tensor) ≠ [] ∧
    ∃ o, FunctionalRMSprop.init [[1]] (-1) 2 (-3) (-4) (-5) true = .ok o ∧
      o.lr = -1 ∧ o.alpha = 2 ∧ o.eps = -3 ∧ o.weight_decay = -4 ∧
      o.momentum = -5 ∧ o.centered = true ∧ o.params = [[1]] :=
  ⟨by simp, init_no_numeric_validation [[1]] (-1) 2 (-3) (-4) (-5) true
    (by simp)⟩

/-- C2: whenever the gradient list's length differs from the parameter
list's, `step` fails with the length-mismatch error; in this functional
embedding no updated optimizer is produced, so every parameter buffer and
every state record is exactly as before the call, and the check precedes
any per-parameter processing. -/
theorem step_length_mismatch (o : FunctionalRMSprop)
    (g : List (Option Tensor)) (h : o.params.length ≠ g.length) :
    o.step g = .error (mismatchMsg o.params.length g.length) := by
  unfold FunctionalRMSprop.step
  rw [if_pos h]

/-- Witness for C2: one parameter, zero gradients. -/
theorem step_length_mismatch_witness :
    oW1.params.length ≠ ([] : List (Option Tensor)).length ∧
    oW1.step [] = .error (mismatchMsg 1 0) :=
  ⟨by simp [oW1], step_length_mismatch oW1 [] (by simp [oW1])⟩

/-- C9: `step` is deterministic — equal configuration, parameter values,
state and gradient lists give equal results; nothing else (randomness,
input/output) influences the outcome of the pure transition function. -/
theorem step_deterministic (o₁ o₂ : FunctionalRMSprop)
    (g₁ g₂ : List (Option Tensor)) (h₁ : o₁ = o₂) (h₂ : g₁ = g₂) :
    o₁.step g₁ = o₂.step g₂ := by
  rw [h₁, h₂]

/-- Witness for C9 at a concrete updater and gradient list. -/
theorem step_deterministic_witness :
    oW1 = oW1 ∧ ([some [2]] : List (Option Tensor)) = [some [2]] ∧
    oW1.step [some [2]] = oW1.step [some [2]] :=
  ⟨rfl, rfl, step_deterministic oW1 oW1 [some [2]] [some [2]] rfl rfl⟩

/-- C1: over any sequence of successful `step` calls, a parameter whose
gradient slot is absent in every call keeps its value and its state slot:
no record is created, no counter incremented, no update applied, whatever
gradients the other parameters receive. -/
theorem runSteps_skips_absent_param (o o' : FunctionalRMSprop)
    (gs : List (List (Option Tensor))) (i : ℕ)
    (h : runSteps o gs = .ok o')
    (habs : ∀ g ∈ gs, g.get? i = some none) :
    o'.params.get? i = o.params.get? i ∧
    o'.state.get? i = o.state.get? i := by
  induction gs generalizing o with
  | nil =>
    simp only [runSteps, Except.ok.injEq] at h
    subst h
    exact ⟨rfl, rfl⟩
  | cons g gs ih =>
    unfold runSteps at h
    cases hstep : o.step g with
    | error e => rw [hstep] at h; exact absurd h (by simp)
    | ok o1 =>
      rw [hstep] at h
      have h1 := step_frame_absent o o1 g i hstep (habs g (by simp))
      have h2 := ih o1 h (fun g' hg' => habs g' (List.mem_cons_of_mem _ hg'))
      exact ⟨h2.1.trans h1.1, h2.2.trans h1.2⟩

/-- Witness for C1: two consecutive calls with the gradient absent leave the
one-parameter updater untouched. -/
theorem runSteps_skips_absent_param_witness :
    runSteps oW1 [[none], [none]] = .ok oW1 ∧
    oW1.params.get? 0 = oW1.params.get? 0 ∧
    oW1.state.get? 0 = oW1.state.get? 0 := by
  have hrun : runSteps oW1 [[none], [none]] = .ok oW1 := rfl
  have habs : ∀ g ∈ ([[none], [none]] : List (List (Option Tensor))),
      g.get? 0 = some none := by
    intro g hg
    rcases List.mem_cons.mp hg with rfl | hg1
    · rfl
    · rcases List.mem_cons.mp hg1 with rfl | hg2
      · rfl
      · exact absurd hg2 (by simp)
  exact ⟨hrun, runSteps_skips_absent_param oW1 oW1 [[none], [none]] 0
    hrun habs⟩

/-! ## Lazy state creation -/

/-- Effect of the lazy-initialization loop at a slot whose gradient is
present: the slot becomes the update of its previous content. -/
theorem stepStates_get?_present (m : ℝ) (c : Bool) (ps : List Tensor)
    (gs : List (Option Tensor)) (sts : List (Option ParamState)) (i : ℕ)
    (p : Tensor) (g : Option Tensor) (st : Option ParamState)
    (hp : ps.get? i = some p) (hg : gs.get? i = some g)
    (hst : sts.get? i = some st) :
    (stepStates m c ps gs sts).get? i =
      some (stepStateUpdate m c p g st) := by
  induction ps generalizing gs sts i with
  | nil => simp at hp
  | cons p0 ps ih =>
    cases gs with
    | nil => simp at hg
    | cons g0 gs =>
      cases sts with
      | nil => simp at hst
      | cons st0 sts =>
        cases i with
        | zero =>
          simp only [List.get?] at hp hg hst
          obtain rfl : p0 = p := by injection hp
          obtain rfl : g0 = g := by injection hg
          obtain rfl : st0 = st := by injection hst
          rfl
        | succ i =>
          simp only [List.get?] at hp hg hst
          show (stepStates m c ps gs sts).get? i = _
          exact ih gs sts i hp hg hst

/-- C5: on the first call in which a parameter has a present gradient, the
loop creates its record with counter `0` immediately incremented to `1`, a
zero `square_avg` shaped like the parameter, a zero `momentum_buffer`
exactly when `momentum > 0` and a zero `grad_avg` exactly when `centered`;
when a record already exists, no new record is created: the existing record
is kept with only its counter incremented. -/
theorem state_lazy_creation (o : FunctionalRMSprop)
    (gradients : List (Option Tensor)) (i : ℕ) (p g : Tensor)
    (hp : o.params.get? i = some p)
    (hg : gradients.get? i = some (some g)) :
    (o.state.get? i = some none →
      (o.lazyInit gradients).state.get? i = some (some
        { step := 1, square_avg := zerosLike p,
          momentum_buffer :=
            if 0 < o.momentum then some (zerosLike p) else none,
          grad_avg := if o.centered then some (zerosLike p) else none })) ∧
    (∀ st : ParamState, o.state.get? i = some (some st) →
      (o.lazyInit gradients).state.get? i =
        some (some { st with step := st.step + 1 })) := by
  constructor
  · intro hnone
    have h := stepStates_get?_present o.momentum o.centered o.params gradients
      o.state i p (some g) none hp hg hnone
    simpa [stepStateUpdate, lazyInitOne] using h
  · intro st hst
    have h := stepStates_get?_present o.momentum o.centered o.params gradients
      o.state i p (some g) (some st) hp hg hst
    simpa [stepStateUpdate, lazyInitOne] using h

/-- Witness for C5: with `momentum = 0.9` and `centered = true`, the first
present gradient creates the record with counter `1`, zero `square_avg`,
zero `momentum_buffer` and zero `grad_avg`. -/
theorem state_lazy_creation_witness :
    oW5.params.get? 0 = some [1] ∧
    ([some [2]] : List (Option Tensor)).get? 0 = some (some [2]) ∧
    oW5.state.get? 0 = some none ∧
    (oW5.lazyInit [some [2]]).state.get? 0 = some (some
      { step := 1, square_avg := [0], momentum_buffer := some [0],
        grad_avg := some [0] }) := by
  refine ⟨rfl, rfl, rfl, ?_⟩
  have h := (state_lazy_creation oW5 [some [2]] 0 [1] [2] rfl rfl).1 rfl
  rw [if_pos (show (0 : ℝ) < oW5.momentum by norm_num [oW5]),
    if_pos (show oW5.centered = true from rfl)] at h
  exact h

/-! ## Presence of the optional buffers -/

/-- The lazy-initialization loop preserves `goodSlot` (new records are
created with exactly the configured buffers). -/
theorem goodSlot_stepStateUpdate (m : ℝ) (c : Bool) (p : Tensor)
    (g : Option Tensor) (st : Option ParamState) (h : goodSlot m c st) :
    goodSlot m c (stepStateUpdate m c p g st) := by
  cases g with
  | none => exact h
  | some t =>
    intro s' hs'
    cases st with
    | some s =>
      simp only [stepStateUpdate, lazyInitOne] at hs'
      injection hs' with h2
      subst h2
      exact h s rfl
    | none =>
      simp only [stepStateUpdate, lazyInitOne] at hs'
      injection hs' with h2
      subst h2
      constructor
      · by_cases hm : 0 < m <;> simp [hm]
      · cases c <;> simp

/-- The numeric kernel preserves `goodSlot`: the momentum buffer is
(re)written only in the momentum branch and the gradient average only in
the centered branch. -/
theorem goodSlot_rmspropUpdate (lr alpha eps wd m : ℝ) (c : Bool)
    (p g : Tensor) (s : ParamState) (h : goodSlot m c (some s)) :
    goodSlot m c (some (rmspropUpdate lr alpha eps wd m c p g s).2) := by
  intro s' hs'
  injection hs' with h2
  subst h2
  obtain ⟨hmb, hga⟩ := h s rfl
  simp only [rmspropUpdate]
  split_ifs with h1 h2 h3 <;> simp_all

/-- `goodSlot` for every slot is preserved by the whole
lazy-initialization loop. -/
theorem stepStates_mem_goodSlot (m : ℝ) (c : Bool) (ps : List Tensor)
    (gs : List (Option Tensor)) (sts : List (Option ParamState))
    (h : ∀ st ∈ sts, goodSlot m c st) :
    ∀ st ∈ stepStates m c ps gs sts, goodSlot m c st := by
  induction ps generalizing gs sts with
  | nil => simpa [stepStates] using h
  | cons p ps ih =>
    cases gs with
    | nil => simpa [stepStates] using h
    | cons g gs =>
      cases sts with
      | nil => simp [stepStates]
      | cons st sts =>
        intro st' hst'
        rcases List.mem_cons.mp hst' with rfl | hmem
        · exact goodSlot_stepStateUpdate m c p g st (h st (by simp))
        · exact ih gs sts (fun x hx => h x (List.mem_cons_of_mem _ hx))
            st' hmem

/-- `goodSlot` for every slot is preserved by the kernel pass. -/
theorem applyKernel_mem_goodSlot (lr alpha eps wd m : ℝ) (c : Bool)
    (ps : List Tensor) (gs : List (Option Tensor))
    (sts : List (Option ParamState))
    (h : ∀ st ∈ sts, goodSlot m c st) :
    ∀ st ∈ (applyKernel lr alpha eps wd m c ps gs sts).2, goodSlot m c st := by
  induction ps generalizing gs sts with
  | nil => simpa [applyKernel] using h
  | cons p ps ih =>
    cases gs with
    | nil => simpa [applyKernel] using h
    | cons g gs =>
      cases sts with
      | nil => simp [applyKernel]
      | cons st sts =>
        have htail := ih gs sts (fun x hx => h x (List.mem_cons_of_mem _ hx))
        have hhead := h st (by simp)
        intro st' hst'
        cases g with
        | none =>
          rcases List.mem_cons.mp (by simpa [applyKernel] using hst') with
            rfl | hmem
          · exact hhead
          · exact htail st' hmem
        | some grad =>
          cases st with
          | none =>
            rcases List.mem_cons.mp (by simpa [applyKernel] using hst') with
              rfl | hmem
            · exact hhead
            · exact htail st' hmem
          | some s =>
            rcases List.mem_cons.mp (by simpa [applyKernel] using hst') with
              rfl | hmem
            · exact goodSlot_rmspropUpdate lr alpha eps wd m c p grad s hhead
            · exact htail st' hmem

/-- Anatomy of a successful construction: the updater stores the
configuration and the parameters, with an empty state mapping. -/
theorem init_ok_elim (params : List Tensor) (lr alpha eps wd m : ℝ)
    (c : Bool) (o : FunctionalRMSprop)
    (h : FunctionalRMSprop.init params lr alpha eps wd m c = .ok o) :
    o = { lr := lr, alpha := alpha, eps := eps, weight_decay := wd,
          momentum := m, centered := c, params := params,
          state := params.map (fun _ => none) } := by
  unfold FunctionalRMSprop.init at h
  split at h
  · exact absurd h (by simp)
  · simp only [Except.ok.injEq] at h
    exact h.symm

/-- One `step` call preserves `goodSlot` for every slot. -/
theorem step_preserves_goodSlots (o o' : FunctionalRMSprop)
    (g : List (Option Tensor)) (h : o.step g = .ok o')
    (hinv : ∀ st ∈ o.state, goodSlot o.momentum o.centered st) :
    ∀ st ∈ o'.state, goodSlot o'.momentum o'.centered st := by
  obtain ⟨-, -, hs, -, -, -, -, hm, hc⟩ := step_ok_elim o o' g h
  rw [hs, hm, hc]
  exact applyKernel_mem_goodSlot _ _ _ _ _ _ _ _ _
    (stepStates_mem_goodSlot _ _ _ _ _ hinv)

/-- `step` never changes the stored configuration; hence neither does a run
of calls. -/
theorem runSteps_config (o o' : FunctionalRMSprop)
    (gs : List (List (Option Tensor))) (h : runSteps o gs = .ok o') :
    o'.momentum = o.momentum ∧ o'.centered = o.centered := by
  induction gs generalizing o with
  | nil =>
    simp only [runSteps, Except.ok.injEq] at h
    subst h
    exact ⟨rfl, rfl⟩
  | cons g gs ih =>
    unfold runSteps at h
    cases hstep : o.step g with
    | error e => rw [hstep] at h; exact absurd h (by simp)
    | ok o1 =>
      rw [hstep] at h
      obtain ⟨hm, hc⟩ := ih o1 h
      obtain ⟨-, -, -, -, -, -, -, hm1, hc1⟩ := step_ok_elim o o1 g hstep
      exact ⟨hm.trans hm1, hc.trans hc1⟩

/-- A run of successful `step` calls preserves `goodSlot` for every slot. -/
theorem runSteps_goodSlots (o o' : FunctionalRMSprop)
    (gs : List (List (Option Tensor))) (h : runSteps o gs = .ok o')
    (hinv : ∀ st ∈ o.state, goodSlot o.momentum o.centered st) :
    ∀ st ∈ o'.state, goodSlot o'.momentum o'.centered st := by
  induction gs generalizing o with
  | nil =>
    simp only [runSteps, Except.ok.injEq] at h
    subst h
    exact hinv
  | cons g gs ih =>
    unfold runSteps at h
    cases hstep : o.step g with
    | error e => rw [hstep] at h; exact absurd h (by simp)
    | ok o1 =>
      rw [hstep] at h
      exact ih o1 h (step_preserves_goodSlots o o1 g hstep hinv)

/-- C6: after any run of successful `step` calls on an updater built by
construction, every existing state record has a `momentum_buffer` exactly
when `momentum > 0` was set at construction, and a `grad_avg` exactly when
`centered` was set at construction. -/
theorem buffer_presence_invariant (params : List Tensor)
    (lr alpha eps wd m : ℝ) (c : Bool) (o o' : FunctionalRMSprop)
    (gs : List (List (Option Tensor)))
    (hinit : FunctionalRMSprop.init params lr alpha eps wd m c = .ok o)
    (hrun : runSteps o gs = .ok o') :
    ∀ st ∈ o'.state, ∀ s : ParamState, st = some s →
      (s.momentum_buffer.isSome = true ↔ 0 < m) ∧
      (s.grad_avg.isSome = true ↔ c = true) := by
  have ho := init_ok_elim params lr alpha eps wd m c o hinit
  subst ho
  have hinv0 : ∀ st ∈ (FunctionalRMSprop.mk lr alpha eps wd m c params
      (params.map (fun _ => none))).state,
      goodSlot m c st := by
    intro st hst
    simp only [List.mem_map] at hst
    obtain ⟨-, -, rfl⟩ := hst
    intro s hs
    exact absurd hs (by simp)
  have hfin := runSteps_goodSlots _ o' gs hrun hinv0
  obtain ⟨hm, hc⟩ := runSteps_config _ o' gs hrun
  intro st hst
  have hgood := hfin st hst
  rw [hm, hc] at hgood
  exact hgood

/-- Witness for C6 at a concrete construction and run. -/
theorem buffer_presence_invariant_witness :
    FunctionalRMSprop.init [[1]] 0.01 0.99 1e-8 0 0.9 true = .ok oW6 ∧
    runSteps oW6 [] = .ok oW6 ∧
    (∀ st ∈ oW6.state, ∀ s : ParamState, st = some s →
      (s.momentum_buffer.isSome = true ↔ (0 : ℝ) < 0.9) ∧
      (s.grad_avg.isSome = true ↔ true = true)) :=
  ⟨rfl, rfl, buffer_presence_invariant [[1]] 0.01 0.99 1e-8 0 0.9 true
    oW6 oW6 [] rfl rfl⟩

/-! ## Step counters -/

/-- The numeric kernel never touches a record's step counter. -/
theorem rmspropUpdate_counter (lr alpha eps wd m : ℝ) (c : Bool)
    (p g : Tensor) (s : ParamState) :
    (rmspropUpdate lr alpha eps wd m c p g s).2.step = s.step := by
  simp only [rmspropUpdate]
  split_ifs <;> rfl

/-- The lazy-initialization loop keeps the state list's length. -/
theorem stepStates_length (m : ℝ) (c : Bool) (ps : List Tensor)
    (gs : List (Option Tensor)) (sts : List (Option ParamState)) :
    (stepStates m c ps gs sts).length = sts.length := by
  induction ps generalizing gs sts with
  | nil => rfl
  | cons p ps ih =>
    cases gs with
    | nil => rfl
    | cons g gs =>
      cases sts with
      | nil => rfl
      | cons st sts => simp [stepStates, ih]

/-- The kernel pass keeps the lengths of both lists. -/
theorem applyKernel_length (lr alpha eps wd m : ℝ) (c : Bool)
    (ps : List Tensor) (gs : List (Option Tensor))
    (sts : List (Option ParamState)) :
    (applyKernel lr alpha eps wd m c ps gs sts).1.length = ps.length ∧
    (applyKernel lr alpha eps wd m c ps gs sts).2.length = sts.length := by
  induction ps generalizing gs sts with
  | nil => exact ⟨rfl, rfl⟩
  | cons p ps ih =>
    cases gs with
    | nil => exact ⟨rfl, rfl⟩
    | cons g gs =>
      cases sts with
      | nil => exact ⟨rfl, rfl⟩
      | cons st sts =>
        obtain ⟨h1, h2⟩ := ih gs sts
        cases g with
        | none => simp [applyKernel, h1, h2]
        | some grad =>
          cases st with
          | none => simp [applyKernel, h1, h2]
          | some s => simp [applyKernel, h1, h2]

/-- The kernel pass never changes any slot's step counter. -/
theorem applyKernel_counter (lr alpha eps wd m : ℝ) (c : Bool)
    (ps : List Tensor) (gs : List (Option Tensor))
    (sts : List (Option ParamState)) (i : ℕ) :
    slotCount ((applyKernel lr alpha eps wd m c ps gs sts).2.get? i) =
      slotCount (sts.get? i) := by
  induction ps generalizing gs sts i with
  | nil => rfl
  | cons p ps ih =>
    cases gs with
    | nil => rfl
    | cons g gs =>
      cases sts with
      | nil => rfl
      | cons st sts =>
        cases i with
        | zero =>
          cases g with
          | none => rfl
          | some grad =>
            cases st with
            | none => rfl
            | some s =>
              simpa [applyKernel, slotCount, recCount] using
                rmspropUpdate_counter lr alpha eps wd m c p grad s
        | succ i =>
          cases g with
          | none => exact ih gs sts i
          | some grad =>
            cases st with
            | none => exact ih gs sts i
            | some s => exact ih gs sts i

/-- A present gradient increments the counter of its slot in the
lazy-initialization loop (from `0` for a freshly created record). -/
theorem stepStateUpdate_counter_present (m : ℝ) (c : Bool) (p : Tensor)
    (t : Tensor) (st : Option ParamState) :
    recCount (stepStateUpdate m c p (some t) st) = recCount st + 1 := by
  cases st with
  | some s => rfl
  | none => rfl

/-- Counter effect of the lazy-initialization loop at one slot: `+1` when
the slot's gradient is present, unchanged otherwise. -/
theorem stepStates_counter (m : ℝ) (c : Bool) (ps : List Tensor)
    (gs : List (Option Tensor)) (sts : List (Option ParamState)) (i : ℕ)
    (h1 : sts.length = ps.length) (h2 : ps.length = gs.length) :
    slotCount ((stepStates m c ps gs sts).get? i) =
      slotCount (sts.get? i) + (if presentAt gs i then 1 else 0) := by
  induction ps generalizing gs sts i with
  | nil =>
    obtain rfl : gs = [] := List.length_eq_zero.mp h2.symm
    obtain rfl : sts = [] := List.length_eq_zero.mp h1
    simp [stepStates, presentAt, slotCount]
  | cons p ps ih =>
    cases gs with
    | nil => simp at h2
    | cons g gs =>
      cases sts with
      | nil => simp at h1
      | cons st sts =>
        cases i with
        | zero =>
          cases g with
          | none => simp [stepStates, stepStateUpdate, presentAt]
          | some t =>
            have := stepStateUpdate_counter_present m c p t st
            simpa [stepStates, presentAt, slotCount] using this
        | succ i =>
          have h1' : sts.length = ps.length := by simpa using h1
          have h2' : ps.length = gs.length := by simpa using h2
          exact ih gs sts i h1' h2'

/-- Counter effect of one successful `step` call at one slot. -/
theorem step_counter_effect (o o' : FunctionalRMSprop)
    (g : List (Option Tensor)) (i : ℕ) (h : o.step g = .ok o')
    (hlen : o.state.length = o.params.length) :
    stepCountAt o' i = stepCountAt o i + (if presentAt g i then 1 else 0) := by
  obtain ⟨hleng, -, hs, -⟩ := step_ok_elim o o' g h
  unfold stepCountAt
  rw [hs, applyKernel_counter,
    stepStates_counter o.momentum o.centered o.params g o.state i hlen hleng]

/-- One successful `step` call keeps the lengths of the parameter and state
lists. -/
theorem step_lengths (o o' : FunctionalRMSprop) (g : List (Option Tensor))
    (h : o.step g = .ok o') :
    o'.state.length = o.state.length ∧
    o'.params.length = o.params.length := by
  obtain ⟨-, hp, hs, -⟩ := step_ok_elim o o' g h
  constructor
  · rw [hs,
      (applyKernel_length o.lr o.alpha o.eps o.weight_decay o.momentum
        o.centered o.params g
        (stepStates o.momentum o.centered o.params g o.state)).2,
      stepStates_length]
  · rw [hp,
      (applyKernel_length o.lr o.alpha o.eps o.weight_decay o.momentum
        o.centered o.params g
        (stepStates o.momentum o.centered o.params g o.state)).1]

/-- Counter effect of a run of successful `step` calls at one slot. -/
theorem runSteps_counter (o o' : FunctionalRMSprop)
    (gs : List (List (Option Tensor))) (i : ℕ)
    (h : runSteps o gs = .ok o')
    (hlen : o.state.length = o.params.length) :
    stepCountAt o' i =
      stepCountAt o i + gs.countP (fun g => presentAt g i) := by
  induction gs generalizing o with
  | nil =>
    simp only [runSteps, Except.ok.injEq] at h
    subst h
    simp
  | cons g gs ih =>
    unfold runSteps at h
    cases hstep : o.step g with
    | error e => rw [hstep] at h; exact absurd h (by simp)
    | ok o1 =>
      rw [hstep] at h
      have hone := step_counter_effect o o1 g i hstep hlen
      obtain ⟨hl1, hl2⟩ := step_lengths o o1 g hstep
      have hrest := ih o1 h (by rw [hl1, hl2]; exact hlen)
      simp only [List.countP_cons]
      rw [hrest, hone]
      omega

/-- In the all-`none` state produced by construction every counter reads
`0`. -/
theorem slotCount_map_none (l : List Tensor) (i : ℕ) :
    slotCount ((l.map (fun _ => (none : Option ParamState))).get? i) = 0 := by
  induction l generalizing i with
  | nil => rfl
  | cons x l ih =>
    cases i with
    | zero => rfl
    | succ i => exact ih i

/-- C7: after any run of successful `step` calls on a freshly constructed
updater, every parameter's step counter equals exactly the number of calls
in which its gradient slot was present. -/
theorem step_counter_counts (params : List Tensor)
    (lr alpha eps wd m : ℝ) (c : Bool) (o o' : FunctionalRMSprop)
    (gs : List (List (Option Tensor))) (i : ℕ)
    (hinit : FunctionalRMSprop.init params lr alpha eps wd m c = .ok o)
    (hrun : runSteps o gs = .ok o') :
    stepCountAt o' i = gs.countP (fun g => presentAt g i) := by
  have ho := init_ok_elim params lr alpha eps wd m c o hinit
  subst ho
  have h := runSteps_counter _ o' gs i hrun (by simp)
  rw [h]
  have h0 : stepCountAt (FunctionalRMSprop.mk lr alpha eps wd m c params
      (params.map fun _ => none)) i = 0 := by
    unfold stepCountAt
    exact slotCount_map_none params i
  rw [h0, Nat.zero_add]

/-! ## Concrete evaluation of the scalar, plain-RMSprop configuration -/

/-- One `step` on a one-parameter scalar updater with `weight_decay = 0`,
`momentum = 0`, `centered = false` and an existing record: the counter is
incremented, `square_avg` follows the exponential moving average of the
squared gradient, and the parameter moves by `-lr * g / (sqrt + eps)`. -/
theorem step_scalar_simple (lr alpha eps p g s : ℝ) (n : ℕ) :
    (FunctionalRMSprop.mk lr alpha eps 0 0 false [[p]]
        [some ⟨n, [s], none, none⟩]).step [some [g]] =
      .ok (FunctionalRMSprop.mk lr alpha eps 0 0 false
        [[p - lr * (g / (Real.sqrt (alpha * s + (1 - alpha) * (g * g)) + eps))]]
        [some ⟨n + 1, [alpha * s + (1 - alpha) * (g * g)], none, none⟩]) := by
  unfold FunctionalRMSprop.step
  rw [if_neg (by simp)]
  simp only [FunctionalRMSprop.lazyInit, stepStates, stepStateUpdate,
    lazyInitOne, applyKernel, rmspropUpdate, ewAdd, ewSub, ewMul, ewDiv,
    scale, addScalar, ewSqrt, zerosLike, List.zipWith, List.map,
    ne_eq, lt_self_iff_false, if_false, not_true_eq_false, ite_false,
    not_false_iff, ite_true, Bool.false_eq_true]

/-- One `step` on the same configuration with no record yet: the counter
reaches `1` and `square_avg` starts from the zero buffer. -/
theorem step_scalar_fresh (lr alpha eps p g : ℝ) :
    (FunctionalRMSprop.mk lr alpha eps 0 0 false [[p]] [none]).step
        [some [g]] =
      .ok (FunctionalRMSprop.mk lr alpha eps 0 0 false
        [[p - lr * (g / (Real.sqrt ((1 - alpha) * (g * g)) + eps))]]
        [some ⟨1, [(1 - alpha) * (g * g)], none, none⟩]) := by
  unfold FunctionalRMSprop.step
  rw [if_neg (by simp)]
  simp only [FunctionalRMSprop.lazyInit, stepStates, stepStateUpdate,
    lazyInitOne, applyKernel, rmspropUpdate, ewAdd, ewSub, ewMul, ewDiv,
    scale, addScalar, ewSqrt, zerosLike, List.zipWith, List.map,
    List.replicate, List.length_cons, List.length_nil,
    ne_eq, lt_self_iff_false, if_false, not_true_eq_false, ite_false,
    not_false_iff, ite_true, Bool.false_eq_true, mul_zero, zero_add]

/-- C4: after one `step` with gradient `2.0`, `square_avg = 0.04`, the
normalizer is `sqrt(0.04) + 1e-8` with `sqrt(0.04) = 0.2`, and the new
parameter value `1 - 0.01 * 2 / (0.2 + 1e-8)` is `0.9` up to `1e-6`. -/
theorem numeric_example_first_step :
    oC4.step [some [2]] = .ok (FunctionalRMSprop.mk 0.01 0.99 1e-8 0 0 false
      [[1 - 0.01 * (2 / (Real.sqrt 0.04 + 1e-8))]]
      [some ⟨1, [0.04], none, none⟩]) ∧
    Real.sqrt 0.04 = 0.2 ∧
    |1 - 0.01 * (2 / (Real.sqrt 0.04 + 1e-8)) - 0.9| < 1e-6 := by
  have h := step_scalar_fresh 0.01 0.99 1e-8 1 2
  rw [show ((1 : ℝ) - 0.99) * (2 * 2) = 0.04 by norm_num] at h
  have hs : Real.sqrt 0.04 = 0.2 := by
    rw [show (0.04 : ℝ) = 0.2 ^ 2 by norm_num]
    exact Real.sqrt_sq (by norm_num)
  refine ⟨h, hs, ?_⟩
  rw [hs, abs_lt]
  constructor <;> norm_num

/-- C8: `step` is not idempotent — starting from the spec's worked example,
a second call with the same gradient changes both the parameter value and
the optimizer state produced by the first call (the state accumulates). -/
theorem step_not_idempotent :
    ∃ o₁ o₂ : FunctionalRMSprop,
      oC4.step [some [2]] = .ok o₁ ∧ o₁.step [some [2]] = .ok o₂ ∧
      o₁.params ≠ o₂.params ∧ o₁.state ≠ o₂.state := by
  refine ⟨_, _, step_scalar_fresh 0.01 0.99 1e-8 1 2,
    step_scalar_simple 0.01 0.99 1e-8 _ 2 _ 1, ?_, ?_⟩
  · intro heq
    simp only [List.cons.injEq, and_true] at heq
    have hd : 0 < (0.01 : ℝ) *
        (2 / (Real.sqrt (0.99 * ((1 - 0.99) * (2 * 2)) + (1 - 0.99) * (2 * 2))
          + 1e-8)) := by positivity
    have : (0.01 : ℝ) *
        (2 / (Real.sqrt (0.99 * ((1 - 0.99) * (2 * 2)) + (1 - 0.99) * (2 * 2))
          + 1e-8)) = 0 := by linarith [heq]
    linarith
  · intro heq
    simp only [List.cons.injEq, Option.some.injEq, ParamState.mk.injEq,
      and_true] at heq
    obtain ⟨h12, -⟩ := heq
    omega

/-- Witness for C7: one call with a present gradient gives counter `1`. -/
theorem step_counter_counts_witness :
    FunctionalRMSprop.init [[1]] 0.01 0.99 1e-8 0 0 false = .ok oC4 ∧
    ∃ o', runSteps oC4 [[some [2]]] = .ok o' ∧
      stepCountAt o' 0 = List.countP (fun g => presentAt g 0) [[some [2]]] := by
  refine ⟨rfl, ?_⟩
  have hrun : runSteps oC4 [[some [2]]] =
      .ok (FunctionalRMSprop.mk 0.01 0.99 1e-8 0 0 false
        [[1 - 0.01 * (2 / (Real.sqrt ((1 - 0.99) * (2 * 2)) + 1e-8))]]
        [some ⟨1, [(1 - 0.99) * (2 * 2)], none, none⟩]) := by
    unfold runSteps oC4
    rw [step_scalar_fresh 0.01 0.99 1e-8 1 2]
    rfl
  exact ⟨_, hrun, step_counter_counts [[1]] 0.01 0.99 1e-8 0 0 false oC4 _
    [[some [2]]] 0 rfl hrun⟩

end
